import Mathlib

/-!
Verification of the mender on-device update agent against its
natural-language specification.  The Go sources are shallowly embedded:
durations are integers counting nanoseconds (Go time.Duration), the
persistent key-value store is an association list, and effectful inputs
(directory listings, script exit codes, wall-clock readings, mount-table
discovery) are passed in as explicit parameters.
-/

namespace Mender

/-! ### Exponential backoff (device.go, GetExponentialBackoffTime) -/

/-- Go time.Minute in nanoseconds; the variable exponentialBackoffSmallestUnit
in device.go is 1 * time.Minute. -/
def exponentialBackoffSmallestUnit : Int := 60000000000

/-- Reduction of an integer into the two's-complement int64 range; Go's
arithmetic on time.Duration (an int64) wraps this way on overflow. -/
def wrapInt64 (x : Int) : Int :=
  (x + 9223372036854775808) % 18446744073709551616 - 9223372036854775808

/-- Loop body of GetExponentialBackoffTime from device.go.  The Go loop is
"for c := 0; c <= tried; c += 3"; here the loop is re-indexed structurally:
k counts the loop entries still to run (initially tried / 3 + 1, the number
of multiples of 3 that are at most tried), and tmc is tried - c.  Each entry
sets interval to nextInterval, doubles nextInterval (an int64 product, so it
wraps on overflow), and returns early when interval has reached maxInterval:
an error when tried - c >= 3 (three tries already spent at the cap), the
smallest unit when the cap lies below it, else the cap.  When the loop exits
normally the interval from the last entry is returned. -/
def backoffIter (maxInterval : Int) : Nat → Nat → Int → Int → Except String Int
  | 0, _, interval, _ => Except.ok interval
  | k + 1, tmc, _, nextInterval =>
    let interval := nextInterval
    let nextInterval := wrapInt64 (nextInterval * 2)
    if maxInterval ≤ interval then
      if 3 ≤ tmc then
        Except.error "Tried maximum amount of times"
      else if maxInterval < exponentialBackoffSmallestUnit then
        Except.ok exponentialBackoffSmallestUnit
      else
        Except.ok maxInterval
    else
      backoffIter maxInterval k (tmc - 3) interval nextInterval

/-- GetExponentialBackoffTime from device.go: start with one minute, try
three times, then double the interval (capped at maxInterval) and try again;
give up after three tries at the cap. -/
def GetExponentialBackoffTime (tried : Nat) (maxInterval : Int) : Except String Int :=
  backoffIter maxInterval (tried / 3 + 1) tried
    exponentialBackoffSmallestUnit exponentialBackoffSmallestUnit

/-! ### State-script executor (statescript, first draft in src/unnamed/part_001)

Wall-clock readings are inputs: each script execution carries its start time
and its elapsed duration, both in nanoseconds.  The persistent store
(github.com/mendersoftware/mender/store DBStore) is an association list from
script name to retry record; its Get/Update/ReadAll/Remove operations are
modelled as pure list operations that do not fail except for the not-exist
case of Get/ReadAll. -/

/-- The exit code a script returns to ask to be retried later. -/
def exitRetryLater : Int := -2

/-- Total retry budget, 1 * 3 * time.Minute in nanoseconds. -/
def retryTotScriptTime : Int := 180000000000

/-- RetryLaterContext from statescript: owning state, time of the latest
execution, and the accumulated duration across attempts. -/
structure RetryLaterContext where
  state : String
  latestExecTime : Int
  totDuration : Int
deriving DecidableEq, Repr

/-- The retry-record portion of the DBStore, keyed by script name. -/
def Store : Type := List (String × RetryLaterContext)

instance : DecidableEq Store := by
  unfold Store
  infer_instance

/-- Lookup by key, the model of db.Get / db.ReadAll (none models the
os.IsNotExist error). -/
def dbGet : Store → String → Option RetryLaterContext
  | [], _ => none
  | (k, v) :: t, n => if k = n then some v else dbGet t n

/-- Upsert by key, the model of db.Update. -/
def dbUpdate : Store → String → RetryLaterContext → Store
  | [], k, v => [(k, v)]
  | (k', v') :: t, k, v =>
    if k' = k then (k, v) :: t else (k', v') :: dbUpdate t k v

/-- Deletion by key, the model of db.Remove. -/
def removeKey : Store → String → Store
  | [], _ => []
  | (k', v') :: t, k =>
    if k' = k then removeKey t k else (k', v') :: removeKey t k

/-- getRetryLaterContext from statescript: when the script has no stored
record, store newctx and return it; otherwise add the stored accumulated
duration into newctx and return that (the store write happens in the
caller). -/
def getRetryLaterContext (db : Store) (scriptName : String)
    (newctx : RetryLaterContext) : RetryLaterContext × Store :=
  match dbGet db scriptName with
  | none => (newctx, dbUpdate db scriptName newctx)
  | some ctx =>
    ({ newctx with totDuration := newctx.totDuration + ctx.totDuration }, db)

/-- Results of ExecuteAll.  ok is a nil error; retryLater is ErrRetryLater;
retryExceeded is the hard error "statescript: error - retry time limit
exceeded for (script)"; getFailed is an error from script discovery;
notExecutable and execFailed are the two per-script hard errors. -/
inductive ExecResult where
  | ok
  | retryLater
  | retryExceeded (script : String)
  | getFailed (msg : String)
  | notExecutable (script : String)
  | execFailed (script : String) (code : Int)
deriving DecidableEq, Repr

/-- handleRetryLaterError from statescript.  elapsedTime stands for the Go
expression time.Since(execTime) evaluated at the call. -/
def handleRetryLaterError (db : Store) (scriptName execState : String)
    (execTime elapsedTime : Int) : Store × ExecResult :=
  let p := getRetryLaterContext db scriptName
    ⟨execState, execTime, elapsedTime⟩
  let db2 := dbUpdate p.2 scriptName p.1
  if p.1.totDuration ≤ retryTotScriptTime then
    (db2, ExecResult.retryLater)
  else
    (db2, ExecResult.retryExceeded scriptName)

/-- One discovered script file as seen by the ExecuteAll loop: its file
name, its file mode (for the executable-bit test), the exit code its
execution returns, the wall-clock time just before executing it, and the
elapsed wall-clock duration of the execution. -/
structure Script where
  name : String
  mode : Nat
  ret : Int
  execTime : Int
  elapsed : Int
deriving DecidableEq, Repr

/-- os.FileMode(syscall.S_IXUSR | syscall.S_IXGRP | syscall.S_IXOTH). -/
def execBits : Nat := 0o111

/-- The loop body of Launcher.ExecuteAll over the discovered scripts.  In
the Go code a non-zero exit with ignoreError set only logs and then falls
through to the cleanup that removes the script's retry record; that
fall-through is written here as the merged condition ret != 0 && not
ignoreError guarding the return branches. -/
def executeScripts (state : String) (ignoreError : Bool) :
    List Script → Store → Store × ExecResult
  | [], db => (db, ExecResult.ok)
  | s :: rest, db =>
    if Nat.land s.mode execBits == 0 then
      if ignoreError then
        executeScripts state ignoreError rest db
      else
        (db, ExecResult.notExecutable s.name)
    else if (s.ret != 0) && !ignoreError then
      if s.ret == exitRetryLater then
        handleRetryLaterError db s.name state s.execTime s.elapsed
      else
        (db, ExecResult.execFailed s.name s.ret)
    else
      let db2 := if (dbGet db s.name).isSome then removeKey db s.name else db
      executeScripts state ignoreError rest db2

/-- Launcher.ExecuteAll from statescript (first draft).  getResult is the
outcome of l.get(state, action) reading the scripts directory; opening the
store is assumed to succeed. -/
def ExecuteAll (getResult : Except String (List Script)) (state : String)
    (ignoreError : Bool) (db : Store) : Store × ExecResult :=
  match getResult with
  | Except.error e =>
    if ignoreError then (db, ExecResult.ok) else (db, ExecResult.getFailed e)
  | Except.ok scr => executeScripts state ignoreError scr db

/-! ### Script discovery (Launcher.get, first draft in src/unnamed/part_001)

The name filter in Launcher.get keeps a file when its name contains
state + "_" and contains the action, and the whole name matches the regular
expression ([A-Za-z]+)_(Enter|Leave|Error)_[0-9][0-9](_\S+)? — the Go code
compares len(name) with len(re.FindString(name)), which holds exactly when
the full name is in the regex's language.  The matcher below decides that
language directly: the leading [A-Za-z]+ run is forced to be the maximal
alphabetic prefix (the following character must be an underscore), the
action word is one of three fixed alternatives none of which is a prefix of
another, and the optional suffix group must consume the remainder. -/

/-- Go regexp class [A-Za-z]. -/
def isAlphaGo (c : Char) : Bool :=
  ('A' ≤ c && c ≤ 'Z') || ('a' ≤ c && c ≤ 'z')

/-- Go regexp class [0-9], also the TrimRight cutset "0123456789" used by
device.getInactivePartition. -/
def isDigitGo (c : Char) : Bool := '0' ≤ c && c ≤ '9'

/-- Go regexp class \s, i.e. [\t\n\f\r ]; \S is its negation. -/
def isSpaceGo (c : Char) : Bool :=
  c == '\t' || c == '\n' || c == '\x0c' || c == '\r' || c == ' '

/-- Whether the pattern list is a prefix of the text list. -/
def startsWithL : List Char → List Char → Bool
  | _, [] => true
  | [], _ :: _ => false
  | c :: cs, p :: ps => c == p && startsWithL cs ps

/-- strings.Contains on character lists: some position of the text starts
with the pattern. -/
def containsL : List Char → List Char → Bool
  | [], pat => startsWithL [] pat
  | c :: ts, pat => startsWithL (c :: ts) pat || containsL ts pat

/-- The optional (_\S+)? group against the rest of the name: either nothing
is left, or an underscore followed by at least one character none of which
is whitespace. -/
def matchOptionalSuffix : List Char → Bool
  | [] => true
  | d :: rest => (d == '_') && !rest.isEmpty && rest.all (fun c => !isSpaceGo c)

/-- The [0-9][0-9](_\S+)? tail of the script-name pattern. -/
def matchDigitsSuffix : List Char → Bool
  | d1 :: d2 :: rest =>
    isDigitGo d1 && isDigitGo d2 && matchOptionalSuffix rest
  | _ => false

/-- The (Enter|Leave|Error)_[0-9][0-9](_\S+)? part of the pattern. -/
def matchActionTail (cs : List Char) : Bool :=
  (startsWithL cs "Enter_".toList && matchDigitsSuffix (cs.drop 6)) ||
  (startsWithL cs "Leave_".toList && matchDigitsSuffix (cs.drop 6)) ||
  (startsWithL cs "Error_".toList && matchDigitsSuffix (cs.drop 6))

/-- After the maximal alphabetic run (the class name, which must be
non-empty) the name must continue with an underscore and the action tail. -/
def matchClassTail (cls : List Char) : List Char → Bool
  | d :: rest => (d == '_') && !cls.isEmpty && matchActionTail rest
  | [] => false

/-- Whole-name match of ([A-Za-z]+)_(Enter|Leave|Error)_[0-9][0-9](_\S+)?,
the condition len(name) == len(re.FindString(name)) from Launcher.get. -/
def scriptFormatMatch (cs : List Char) : Bool :=
  matchClassTail (cs.takeWhile isAlphaGo) (cs.dropWhile isAlphaGo)

/-- The per-file condition of the discovery loop in Launcher.get: the name
contains state + "_" and the action, and the whole name is well-formed. -/
def selectScript (state action name : String) : Bool :=
  containsL name.toList (state ++ "_").toList &&
  containsL name.toList action.toList &&
  scriptFormatMatch name.toList

/-- The scripts Launcher.get accumulates from a directory listing (the
version file handling is independent of the selection and omitted);
malformed names are merely skipped. -/
def getScripts (files : List String) (state action : String) : List String :=
  files.filter (selectScript state action)

/-- The spec-side script-name shape, written from the specification's words:
the entire name is ClassName_Action_NN[_suffix] where ClassName is a
non-empty alphabetic word, Action is Enter, Leave or Error, NN is exactly
two digits, and the optional suffix is an underscore followed by at least
one non-whitespace character. -/
def SpecScriptName (cs : List Char) : Prop :=
  ∃ cls act d1 d2 suf,
    cs = cls ++ '_' :: (act ++ '_' :: d1 :: d2 :: suf) ∧
    cls ≠ [] ∧ (∀ c ∈ cls, isAlphaGo c = true) ∧
    (act = "Enter".toList ∨ act = "Leave".toList ∨ act = "Error".toList) ∧
    isDigitGo d1 = true ∧ isDigitGo d2 = true ∧
    (suf = [] ∨ ∃ t, suf = '_' :: t ∧ t ≠ [] ∧
      ∀ c ∈ t, isSpaceGo c = false)

/-! ### Status-report client (src/device.go, client package) -/

/-- The apiPrefix constant of the client package. -/
def apiPrefix : String := "/api/devices/v1/"

/-- strings.HasPrefix via the character-list prefix test (the URLs involved
are ASCII, so byte and character prefixes agree). -/
def hasPrefixS (s pre : String) : Bool := startsWithL s.toList pre.toList

/-- client.buildURL: prepend https:// unless a scheme is present. -/
def buildURL (server : String) : String :=
  if hasPrefixS server "https://" || hasPrefixS server "http://" then server
  else "https://" ++ server

/-- client.buildApiURL: strip one leading slash from the endpoint (the Go
slice url[1:], one character here since the slash is ASCII) and join
server, apiPrefix and endpoint. -/
def buildApiURL (server url : String) : String :=
  let u := if hasPrefixS url "/" then String.mk (url.toList.drop 1) else url
  buildURL server ++ apiPrefix ++ u

/-- The URL built by makeUpdateStatusRequest: the Go code formats
"/device/deployments/(id)/status" with the literal placeholder "10" inside
literal braces instead of the deployment ID (its TODO comment says the id
remains to be added), so the function does not even take the deployment as
an argument. -/
def makeUpdateStatusRequestURL (server : String) : String :=
  buildApiURL server ("/device/deployments/\x7b10\x7d/status")

/-! ### A/B partition manager (partitions.go, device.go)

A partition value is identified by its device path (partition.String
returns the Path, and the empty string for a nil partition pointer);
Option String models a possibly-nil partition pointer.  The active-rootfs
discovery of getAndCacheActivePartition walks the mount table and the
bootloader environment; that whole side-effecting computation is an input,
passed as the Except value it would produce. -/

/-- Errors of the partition manager and the device wrapper. -/
inductive PartErr where
  | numberNotSet
  | numberSame
  | noMatchActive
  | noUpgradeMounted
  | other (msg : String)
deriving DecidableEq, Repr

/-- The partitions struct from partitions.go: the configured A and B rootfs
partitions and the cached active and inactive partitions (none models a nil
pointer). -/
structure Partitions where
  rootfsPartA : Option String
  rootfsPartB : Option String
  active : Option String
  inactive : Option String
deriving DecidableEq, Repr

/-- partitions.GetActive: the cached active partition when present,
otherwise the result of the mount-table/bootloader discovery performed by
getAndCacheActivePartition, which is an input here. -/
def GetActive (p : Partitions) (discover : Except PartErr String) :
    Except PartErr String :=
  match p.active with
  | some a => Except.ok a
  | none => discover

/-- partitions.getAndCacheInactivePartition: both configured partitions must
be set and distinct, the active partition is resolved, and the inactive one
is whichever configured partition the active one is not (the write of the
cache does not affect the returned value and is dropped here). -/
def getAndCacheInactivePartition (p : Partitions)
    (discover : Except PartErr String) : Except PartErr String :=
  match p.rootfsPartA, p.rootfsPartB with
  | none, _ => Except.error PartErr.numberNotSet
  | some _, none => Except.error PartErr.numberNotSet
  | some a, some b =>
    if a = b then Except.error PartErr.numberSame
    else
      match GetActive p discover with
      | Except.error e => Except.error e
      | Except.ok act =>
        if act = a then Except.ok b
        else if act = b then Except.ok a
        else Except.error PartErr.noMatchActive

/-- partitions.GetInactive: the cached inactive partition when present,
otherwise getAndCacheInactivePartition. -/
def GetInactive (p : Partitions) (discover : Except PartErr String) :
    Except PartErr String :=
  match p.inactive with
  | some i => Except.ok i
  | none => getAndCacheInactivePartition p discover

/-- NewPartition from partitions.go: an empty path is an error.  Modelled
from the spec: NewBlockDevice, whose source file is not in the repository
snapshot, constructs the block device recording the given path. -/
def NewPartition (path : String) : Except String String :=
  if path = "" then Except.error "partition has no path" else Except.ok path

/-- NewDevice from device.go: builds both partitions from the configuration
and pre-caches active := rootfsPartA and inactive := rootfsPartB. -/
def NewDevice (rootfsPartA rootfsPartB : String) : Except String Partitions :=
  match NewPartition rootfsPartA with
  | Except.error e =>
    Except.error ("failed to initialize rootfsPartA: " ++ e)
  | Except.ok a =>
    match NewPartition rootfsPartB with
    | Except.error e =>
      Except.error ("failed to initialize rootfsPartB: " ++ e)
    | Except.ok b =>
      Except.ok { rootfsPartA := some a, rootfsPartB := some b,
                  active := some a, inactive := some b }

/-! ### Bootloader environment and device operations (device.go) -/

/-- The bootloader environment as a finite map from variable names to
values; a Go map lookup of an absent key yields the empty string. -/
def BootEnv : Type := List (String × String)

instance : DecidableEq BootEnv := by
  unfold BootEnv
  infer_instance

/-- Map lookup with the Go zero-value default for absent keys. -/
def envGet : BootEnv → String → String
  | [], _ => ""
  | (k, v) :: t, n => if k = n then v else envGet t n

/-- device.HasUpdate: read upgrade_available from the bootloader
environment and compare it with "1"; a read failure propagates.  The
argument is the outcome of d.ReadEnv("upgrade_available"). -/
def HasUpdate (readRes : Except String BootEnv) : Except PartErr Bool :=
  match readRes with
  | Except.error e =>
    Except.error (PartErr.other ("failed to read environment variable: " ++ e))
  | Except.ok env => Except.ok (envGet env "upgrade_available" == "1")

/-- device.CommitUpdate: requires HasUpdate, then performs a single
WriteEnv setting upgrade_available to "0"; with no update pending it fails
with errorNoUpgradeMounted and writes nothing.  The ok payload is the
BootVars map handed to WriteEnv. -/
def CommitUpdate (readRes : Except String BootEnv) :
    Except PartErr (List (String × String)) :=
  match HasUpdate readRes with
  | Except.error e => Except.error e
  | Except.ok true => Except.ok [("upgrade_available", "0")]
  | Except.ok false => Except.error PartErr.noUpgradeMounted

/-- The longest run of decimal digits at the end of a character list; this
is the Go expression path[len(strings.TrimRight(path, "0123456789")):] from
device.getInactivePartition. -/
def trailingDigitsL (cs : List Char) : List Char :=
  (cs.reverse.takeWhile isDigitGo).reverse

/-- String wrapper for trailingDigitsL. -/
def trailingDigits (s : String) : String :=
  String.mk (trailingDigitsL s.toList)

/-- The numeric value of an all-digit character list. -/
def digitsToNat (cs : List Char) : Nat :=
  cs.foldl (fun acc c => acc * 10 + (c.toNat - 48)) 0

/-- math.MaxInt64, the largest value strconv.Atoi accepts on a 64-bit
build. -/
def maxInt64 : Nat := 9223372036854775807

/-- strconv.Atoi applied to the all-digit trailing slice of the partition
path: fails on the empty string and, with a range error, on values
exceeding the int64 range. -/
def atoiDigits (cs : List Char) : Option Nat :=
  if cs.isEmpty then none
  else if digitsToNat cs ≤ maxInt64 then some (digitsToNat cs)
  else none

/-- fmt.Sprintf("%X", n): minimal-width uppercase hexadecimal. -/
def formatHexUpper (n : Nat) : String :=
  String.mk ((Nat.toDigits 16 n).map Char.toUpper)

/-- device.getInactivePartition: resolve the inactive partition, take its
longest trailing run of digits as the decimal partition number (the Atoi
call fails when that run is empty or overflows int64, making the partition
invalid), and format the parsed number as uppercase hexadecimal. -/
def getInactivePartition (p : Partitions)
    (discover : Except PartErr String) : Except String (String × String) :=
  match GetInactive p discover with
  | Except.error _ => Except.error "Error obtaining inactive partition"
  | Except.ok ipath =>
    let dec := trailingDigits ipath
    match atoiDigits dec.toList with
    | none => Except.error ("Invalid inactive partition: " ++ ipath)
    | some n => Except.ok (dec, formatHexUpper n)

/-- device.EnableUpdatedPartition: one WriteEnv call setting
upgrade_available to "1", the decimal and hexadecimal boot-partition
variables, and bootcount to "0"; on failure nothing is written.  The ok
payload is the BootVars map handed to WriteEnv. -/
def EnableUpdatedPartition (p : Partitions)
    (discover : Except PartErr String) :
    Except String (List (String × String)) :=
  match getInactivePartition p discover with
  | Except.error e => Except.error e
  | Except.ok (dec, hex) =>
    Except.ok [("upgrade_available", "1"), ("mender_boot_part", dec),
               ("mender_boot_part_hex", hex), ("bootcount", "0")]

end Mender

namespace Mender

/-- On arguments inside the int64 range the two's-complement reduction is
the identity. -/
theorem wrapInt64_eq_self (x : Int) (h0 : 0 ≤ x)
    (h1 : x < 9223372036854775808) : wrapInt64 x = x := by
  unfold wrapInt64
  omega

/-- Any interval the backoff loop returns lies between the smallest unit and
the cap, provided the cap is at least the smallest unit and at most 2^62
nanoseconds (so the int64 doubling cannot wrap while the loop runs) and the
loop is entered with an interval in range. -/
theorem backoffIter_bounds (maxInterval : Int) :
    ∀ (k tmc : Nat) (interval nextInterval d : Int),
      exponentialBackoffSmallestUnit ≤ maxInterval →
      maxInterval ≤ 4611686018427387904 →
      exponentialBackoffSmallestUnit ≤ interval →
      interval ≤ maxInterval →
      exponentialBackoffSmallestUnit ≤ nextInterval →
      backoffIter maxInterval k tmc interval nextInterval = Except.ok d →
      exponentialBackoffSmallestUnit ≤ d ∧ d ≤ maxInterval := by
  intro k
  induction k with
  | zero =>
    intro tmc interval nextInterval d hcap hcap2 hlo hhi _ hrun
    simp only [backoffIter] at hrun
    cases hrun
    exact ⟨hlo, hhi⟩
  | succ k ih =>
    intro tmc interval nextInterval d hcap hcap2 hlo hhi hnext hrun
    simp only [backoffIter] at hrun
    by_cases hge : maxInterval ≤ nextInterval
    · rw [if_pos hge] at hrun
      by_cases htmc : 3 ≤ tmc
      · rw [if_pos htmc] at hrun
        cases hrun
      · rw [if_neg htmc] at hrun
        by_cases hsmall : maxInterval < exponentialBackoffSmallestUnit
        · rw [if_pos hsmall] at hrun
          cases hrun
          exact ⟨le_refl _, hcap⟩
        · rw [if_neg hsmall] at hrun
          cases hrun
          exact ⟨hcap, le_refl _⟩
    · rw [if_neg hge] at hrun
      have hpos : (0 : Int) < exponentialBackoffSmallestUnit := by decide
      have hlt : nextInterval < maxInterval := lt_of_not_le hge
      have hwrap : wrapInt64 (nextInterval * 2) = nextInterval * 2 := by
        apply wrapInt64_eq_self <;> omega
      rw [hwrap] at hrun
      refine ih (tmc - 3) nextInterval (nextInterval * 2) d hcap hcap2
        hnext (le_of_lt hlt) ?_ hrun
      omega

/-- Counterexample for C1's universal bound: with the in-range int64 cap of
9e18 nanoseconds (far above the one-minute base unit) and tried = 84, the
28th doubling of the interval overflows int64 and the loop returns a
negative interval with nil error — an interval below the base unit, which
the claim says can never be returned for any cap at least the base unit. -/
theorem getExponentialBackoffTime_overflow_counterexample :
    GetExponentialBackoffTime 84 9000000000000000000
      = Except.ok (-2340616713709551616) ∧
    exponentialBackoffSmallestUnit ≤ 9000000000000000000 ∧
    (-2340616713709551616 : Int) < exponentialBackoffSmallestUnit :=
  ⟨rfl, by decide, by decide⟩

/-- C1 as amended: for maxInterval = 5 minutes, GetExponentialBackoffTime
returns 1m for tried 0..2, 2m for tried 3..5, 4m for tried 6..8, 5m for
tried 9..11, and the error "Tried maximum amount of times" at tried = 12;
and for every tried and every maxInterval between the one-minute base unit
and 2^62 nanoseconds — beyond which the int64 doubling can wrap — a
returned interval is never greater than maxInterval and never less than the
base unit. -/
theorem getExponentialBackoffTime_spec :
    (GetExponentialBackoffTime 0 300000000000 = Except.ok 60000000000 ∧
     GetExponentialBackoffTime 1 300000000000 = Except.ok 60000000000 ∧
     GetExponentialBackoffTime 2 300000000000 = Except.ok 60000000000 ∧
     GetExponentialBackoffTime 3 300000000000 = Except.ok 120000000000 ∧
     GetExponentialBackoffTime 4 300000000000 = Except.ok 120000000000 ∧
     GetExponentialBackoffTime 5 300000000000 = Except.ok 120000000000 ∧
     GetExponentialBackoffTime 6 300000000000 = Except.ok 240000000000 ∧
     GetExponentialBackoffTime 7 300000000000 = Except.ok 240000000000 ∧
     GetExponentialBackoffTime 8 300000000000 = Except.ok 240000000000 ∧
     GetExponentialBackoffTime 9 300000000000 = Except.ok 300000000000 ∧
     GetExponentialBackoffTime 10 300000000000 = Except.ok 300000000000 ∧
     GetExponentialBackoffTime 11 300000000000 = Except.ok 300000000000 ∧
     GetExponentialBackoffTime 12 300000000000 =
       Except.error "Tried maximum amount of times") ∧
    (∀ (tried : Nat) (maxInterval : Int),
      exponentialBackoffSmallestUnit ≤ maxInterval →
      maxInterval ≤ 4611686018427387904 →
      ∀ d : Int, GetExponentialBackoffTime tried maxInterval = Except.ok d →
        exponentialBackoffSmallestUnit ≤ d ∧ d ≤ maxInterval) := by
  constructor
  · exact ⟨rfl, rfl, rfl, rfl, rfl, rfl, rfl, rfl, rfl, rfl, rfl, rfl, rfl⟩
  · intro tried maxInterval hcap hcap2 d hrun
    exact backoffIter_bounds maxInterval (tried / 3 + 1) tried
      exponentialBackoffSmallestUnit exponentialBackoffSmallestUnit d
      hcap hcap2 (le_refl _) hcap (le_refl _) hrun

/-- Witness for C1's amended theorem: the bound applied at tried = 0 and a
two-minute cap, where the interval returned is the one-minute base unit. -/
theorem getExponentialBackoffTime_spec_witness :
    exponentialBackoffSmallestUnit ≤ (120000000000 : Int) ∧
    (120000000000 : Int) ≤ 4611686018427387904 ∧
    (exponentialBackoffSmallestUnit ≤ (60000000000 : Int) ∧
     (60000000000 : Int) ≤ 120000000000) :=
  ⟨by decide, by decide,
   getExponentialBackoffTime_spec.2 0 120000000000 (by decide) (by decide)
     60000000000 rfl⟩

theorem dbGet_dbUpdate_self (db : Store) (k : String) (v : RetryLaterContext) :
    dbGet (dbUpdate db k v) k = some v := by
  induction db with
  | nil => simp [dbUpdate, dbGet]
  | cons p t ih =>
    obtain ⟨k', v'⟩ := p
    by_cases h : k' = k
    · subst h
      simp [dbUpdate, dbGet]
    · simp [dbUpdate, dbGet, h, ih]

theorem removeKey_of_dbGet_none (db : Store) (k : String)
    (h : dbGet db k = none) : removeKey db k = db := by
  induction db with
  | nil => rfl
  | cons p t ih =>
    obtain ⟨k', v'⟩ := p
    by_cases hk : k' = k
    · subst hk
      simp [dbGet] at h
    · simp [dbGet, hk] at h
      simp [removeKey, hk, ih h]

/-- C3: when a script exits with exit-retry-later and ignoreError is false,
ExecuteAll's loop returns the result of handleRetryLaterError, which stores
the record (state, exec time, elapsed) on first occurrence, adds the elapsed
time into the accumulated duration on later occurrences, and yields
ErrRetryLater exactly when the accumulated duration is at most
retryTotScriptTime (3 minutes), the hard retry-limit failure otherwise. -/
theorem executeAll_retryLater_spec (db : Store) (state : String) (s : Script)
    (rest : List Script) (hmode : Nat.land s.mode execBits ≠ 0)
    (hret : s.ret = exitRetryLater) :
    executeScripts state false (s :: rest) db
      = handleRetryLaterError db s.name state s.execTime s.elapsed ∧
    ((dbGet db s.name = none →
      dbGet (handleRetryLaterError db s.name state s.execTime s.elapsed).1
        s.name = some ⟨state, s.execTime, s.elapsed⟩) ∧
     (∀ old, dbGet db s.name = some old →
      dbGet (handleRetryLaterError db s.name state s.execTime s.elapsed).1
        s.name = some ⟨state, s.execTime, s.elapsed + old.totDuration⟩) ∧
     ((handleRetryLaterError db s.name state s.execTime s.elapsed).2
        = ExecResult.retryLater ↔
      s.elapsed + (match dbGet db s.name with
                   | some old => old.totDuration
                   | none => 0) ≤ retryTotScriptTime) ∧
     ((handleRetryLaterError db s.name state s.execTime s.elapsed).2
        = ExecResult.retryLater ∨
      (handleRetryLaterError db s.name state s.execTime s.elapsed).2
        = ExecResult.retryExceeded s.name)) := by
  have h1 : (Nat.land s.mode execBits == 0) = false := by
    simpa using hmode
  have h0 : ¬ s.ret = 0 := by
    rw [hret]; decide
  have h3 : (s.ret == exitRetryLater) = true := by
    rw [hret]; decide
  refine ⟨by simp [executeScripts, h1, h3, h0], ?_, ?_, ?_, ?_⟩
  · intro hnone
    simp only [handleRetryLaterError, getRetryLaterContext, hnone]
    split <;> exact dbGet_dbUpdate_self _ _ _
  · intro old hold
    simp only [handleRetryLaterError, getRetryLaterContext, hold]
    split <;> exact dbGet_dbUpdate_self _ _ _
  · simp only [handleRetryLaterError, getRetryLaterContext]
    cases hdb : dbGet db s.name with
    | none =>
      simp only [hdb, add_zero]
      by_cases hc : s.elapsed ≤ retryTotScriptTime
      · simp [if_pos hc, hc]
      · simp [if_neg hc, hc]
    | some old =>
      simp only [hdb]
      by_cases hc : s.elapsed + old.totDuration ≤ retryTotScriptTime
      · simp [if_pos hc, hc]
      · simp [if_neg hc, hc]
  · simp only [handleRetryLaterError, getRetryLaterContext]
    cases hdb : dbGet db s.name <;> simp only [hdb] <;> split <;> simp

/-- Witness for C3: the theorem applied to a script named S, mode 0755, exit
code -2, executed at time 0 for one minute, over the empty store. -/
theorem executeAll_retryLater_spec_witness :
    executeScripts "ArtifactInstall" false
      [⟨"S", 493, -2, 0, 60000000000⟩] []
      = handleRetryLaterError [] "S" "ArtifactInstall" 0 60000000000 :=
  (executeAll_retryLater_spec [] "ArtifactInstall"
    ⟨"S", 493, -2, 0, 60000000000⟩ [] (by decide) rfl).1

/-- Counterexample for C4: a script S with an existing retry record exits
with code 1 while ignoreError is set: the loop falls through to the cleanup
and removes the record even though the last execution did not exit 0; and a
script whose first-ever execution exits 1 with ignoreError unset leaves no
record at all although its last execution was non-zero. -/
theorem executeAll_retryRecord_counterexample :
    (ExecuteAll (Except.ok [⟨"S", 493, 1, 0, 0⟩]) "ArtifactInstall" true
      [("S", ⟨"ArtifactInstall", 0, 0⟩)]).1 = [] ∧
    (ExecuteAll (Except.ok [⟨"S", 493, 1, 0, 0⟩]) "ArtifactInstall" true
      [("S", ⟨"ArtifactInstall", 0, 0⟩)]).2 = ExecResult.ok ∧
    (ExecuteAll (Except.ok [⟨"S", 493, 1, 0, 0⟩]) "ArtifactInstall" false [])
      = ([], ExecResult.execFailed "S" 1) ∧
    (1 : Int) ≠ 0 :=
  ⟨rfl, rfl, rfl, by decide⟩

/-- C4 as amended: after an executable script's execution, its retry record
is removed whenever the loop iteration completes — that is, the script
exited 0, or it exited non-zero while ignoreError is set; the record is
created or updated only on an exit-retry-later exit with ignoreError unset;
and any other non-zero exit with ignoreError unset stops the run leaving the
store untouched. -/
theorem executeAll_retryRecord_amended (state : String) (ign : Bool)
    (s : Script) (rest : List Script) (db : Store)
    (hmode : Nat.land s.mode execBits ≠ 0) :
    ((s.ret = 0 ∨ (ign = true ∧ s.ret ≠ 0)) →
      executeScripts state ign (s :: rest) db
        = executeScripts state ign rest (removeKey db s.name)) ∧
    (ign = false → s.ret = exitRetryLater →
      dbGet (executeScripts state false (s :: rest) db).1 s.name ≠ none) ∧
    (ign = false → s.ret ≠ 0 → s.ret ≠ exitRetryLater →
      executeScripts state false (s :: rest) db
        = (db, ExecResult.execFailed s.name s.ret)) := by
  have h1 : (Nat.land s.mode execBits == 0) = false := by
    simpa using hmode
  refine ⟨?_, ?_, ?_⟩
  · intro hcase
    have h2 : ((s.ret != 0) && !ign) = false := by
      rcases hcase with h0 | ⟨hi, _⟩
      · simp [h0]
      · simp [hi]
    have hdb2 : (if (dbGet db s.name).isSome then removeKey db s.name else db)
        = removeKey db s.name := by
      cases hdb : dbGet db s.name with
      | none => simp [removeKey_of_dbGet_none db s.name hdb]
      | some v => simp
    simp [executeScripts, h1, h2, hdb2]
  · intro hign hret
    have h0 : ¬ s.ret = 0 := by
      rw [hret]; decide
    have h3 : (s.ret == exitRetryLater) = true := by
      rw [hret]; decide
    have heq : executeScripts state false (s :: rest) db
        = handleRetryLaterError db s.name state s.execTime s.elapsed := by
      simp [executeScripts, h1, h3, h0]
    rw [heq]
    simp only [handleRetryLaterError]
    split <;> simp [dbGet_dbUpdate_self]
  · intro hign hret0 hretR
    have h3 : (s.ret == exitRetryLater) = false := by
      simpa using hretR
    simp [executeScripts, h1, h3, hret0]

/-- Witness for C4's amended theorem: the cleanup clause applied to a script
that exits 1 under ignoreError over a store holding its record. -/
theorem executeAll_retryRecord_amended_witness :
    executeScripts "A" true []
      (removeKey [("S", ⟨"A", 0, 0⟩)] "S")
      = executeScripts "A" true [] (removeKey [("S", ⟨"A", 0, 0⟩)] "S") ∧
    executeScripts "A" true [⟨"S", 493, 1, 0, 0⟩] [("S", ⟨"A", 0, 0⟩)]
      = executeScripts "A" true [] (removeKey [("S", ⟨"A", 0, 0⟩)] "S") :=
  ⟨rfl, (executeAll_retryRecord_amended "A" true ⟨"S", 493, 1, 0, 0⟩ []
    [("S", ⟨"A", 0, 0⟩)] (by decide)).1 (Or.inr ⟨rfl, by decide⟩)⟩

/-- Counterexample for C5: with ignoreError set, a script exiting with the
exit-retry-later code -2 does not take part in the retry machinery at all:
ExecuteAll returns nil at once, no retry record is written, and
ErrRetryLater is never surfaced. -/
theorem executeAll_ignoreError_counterexample :
    ExecuteAll (Except.ok [⟨"S", 493, -2, 0, 0⟩]) "ArtifactInstall" true []
      = ([], ExecResult.ok) ∧
    dbGet (ExecuteAll (Except.ok [⟨"S", 493, -2, 0, 0⟩]) "ArtifactInstall"
      true []).1 "S" = none ∧
    ExecResult.ok ≠ ExecResult.retryLater :=
  ⟨rfl, rfl, by decide⟩

/-- C5 as amended: with ignoreError set, ExecuteAll returns nil whatever the
discovery outcome, the scripts' modes and their exit codes; in particular an
exit-retry-later exit is ignored like any other non-zero exit, with no
retry-record update and no ErrRetryLater. -/
theorem executeAll_ignoreError_amended
    (getResult : Except String (List Script)) (state : String) (db : Store) :
    (ExecuteAll getResult state true db).2 = ExecResult.ok := by
  cases getResult with
  | error e => rfl
  | ok scr =>
    simp only [ExecuteAll]
    induction scr generalizing db with
    | nil => rfl
    | cons s rest ih =>
      by_cases h : (Nat.land s.mode execBits == 0) = true
      · simp [executeScripts, h, ih]
      · simp [executeScripts, h, ih]

/-- C6: CommitUpdate succeeds exactly when HasUpdate holds, in which case
the single WriteEnv call sets upgrade_available to "0"; otherwise it fails
with errorNoUpgradeMounted writing nothing; and HasUpdate holds exactly
when the bootloader environment maps upgrade_available to "1" (any other
value, absent and empty included, gives false without error). -/
theorem commitUpdate_hasUpdate_spec (readRes : Except String BootEnv) :
    ((∃ w, CommitUpdate readRes = Except.ok w) ↔
      HasUpdate readRes = Except.ok true) ∧
    (∀ w, CommitUpdate readRes = Except.ok w →
      w = [("upgrade_available", "0")]) ∧
    (HasUpdate readRes = Except.ok false →
      CommitUpdate readRes = Except.error PartErr.noUpgradeMounted) ∧
    (∀ env, readRes = Except.ok env →
      (HasUpdate readRes = Except.ok true ↔
        envGet env "upgrade_available" = "1")) := by
  cases readRes with
  | error e =>
    refine ⟨?_, ?_, ?_, ?_⟩
    · constructor
      · rintro ⟨w, hw⟩
        simp [CommitUpdate, HasUpdate] at hw
      · intro h
        simp [HasUpdate] at h
    · intro w hw
      simp [CommitUpdate, HasUpdate] at hw
    · intro h
      simp [HasUpdate] at h
    · intro env henv
      simp at henv
  | ok env =>
    by_cases h1 : envGet env "upgrade_available" = "1"
    · have hh : HasUpdate (Except.ok env) = Except.ok true := by
        simp [HasUpdate, h1]
      have hc : CommitUpdate (Except.ok env)
          = Except.ok [("upgrade_available", "0")] := by
        simp only [CommitUpdate, hh]
      refine ⟨?_, ?_, ?_, ?_⟩
      · exact ⟨fun _ => hh, fun _ => ⟨_, hc⟩⟩
      · intro w hw
        rw [hc] at hw
        cases hw
        rfl
      · intro h
        rw [hh] at h
        cases h
      · intro env' henv
        cases henv
        simp [hh, h1]
    · have hh : HasUpdate (Except.ok env) = Except.ok false := by
        simp [HasUpdate, h1]
      refine ⟨?_, ?_, ?_, ?_⟩
      · simp only [CommitUpdate, hh]
        constructor
        · rintro ⟨w, hw⟩
          cases hw
        · intro h
          cases h
      · intro w hw
        simp only [CommitUpdate, hh] at hw
        cases hw
      · intro _
        simp only [CommitUpdate, hh]
      · intro env' henv
        cases henv
        simp [hh, h1]

/-- Witness for C6: an environment mapping upgrade_available to "1" lets
CommitUpdate succeed, and HasUpdate agrees with the stored value. -/
theorem commitUpdate_hasUpdate_spec_witness :
    (∃ w, CommitUpdate (Except.ok [("upgrade_available", "1")])
      = Except.ok w) ∧
    (HasUpdate (Except.ok [("upgrade_available", "1")]) = Except.ok true ↔
      envGet [("upgrade_available", "1")] "upgrade_available" = "1") :=
  ⟨(commitUpdate_hasUpdate_spec (Except.ok [("upgrade_available", "1")])).1.mpr
      rfl,
   (commitUpdate_hasUpdate_spec (Except.ok [("upgrade_available", "1")])).2.2.2
      [("upgrade_available", "1")] rfl⟩

/-- C7: with no cached inactive partition, GetInactive fails with
ErrorPartitionNumberNotSet when a configured partition is missing, with
ErrorPartitionNumberSame when the two coincide, returns the other
configured partition when the active one matches one of them, and fails
with ErrorPartitionNoMatchActive when it matches neither. -/
theorem getInactive_spec (p : Partitions) (discover : Except PartErr String)
    (hcache : p.inactive = none) :
    ((p.rootfsPartA = none ∨ p.rootfsPartB = none) →
      GetInactive p discover = Except.error PartErr.numberNotSet) ∧
    (∀ a b, p.rootfsPartA = some a → p.rootfsPartB = some b →
      (a = b → GetInactive p discover = Except.error PartErr.numberSame) ∧
      (a ≠ b → ∀ act, GetActive p discover = Except.ok act →
        (act = a → GetInactive p discover = Except.ok b) ∧
        (act = b → GetInactive p discover = Except.ok a) ∧
        (act ≠ a → act ≠ b →
          GetInactive p discover = Except.error PartErr.noMatchActive))) := by
  have hred : GetInactive p discover
      = getAndCacheInactivePartition p discover := by
    simp [GetInactive, hcache]
  rw [hred]
  constructor
  · intro h
    rcases h with hA | hB
    · simp [getAndCacheInactivePartition, hA]
    · cases hA : p.rootfsPartA with
      | none => simp [getAndCacheInactivePartition, hA]
      | some a => simp [getAndCacheInactivePartition, hA, hB]
  · intro a b ha hb
    constructor
    · intro hab
      simp [getAndCacheInactivePartition, ha, hb, hab]
    · intro hab act hact
      refine ⟨?_, ?_, ?_⟩
      · intro haa
        subst haa
        simp [getAndCacheInactivePartition, ha, hb, hab, hact]
      · intro hbb
        subst hbb
        simp [getAndCacheInactivePartition, ha, hb, hab, hact,
          Ne.symm hab]
      · intro hna hnb
        simp [getAndCacheInactivePartition, ha, hb, hab, hact, hna, hnb]

/-- Witness for C7: a partitions value with A and B configured, A cached
as active and no cached inactive resolves the inactive partition to B. -/
theorem getInactive_spec_witness :
    GetInactive
      ⟨some "/dev/hda2", some "/dev/hda3", some "/dev/hda2", none⟩
      (Except.error (PartErr.other "")) = Except.ok "/dev/hda3" :=
  ((((getInactive_spec
      ⟨some "/dev/hda2", some "/dev/hda3", some "/dev/hda2", none⟩
      (Except.error (PartErr.other "")) rfl).2
    "/dev/hda2" "/dev/hda3" rfl rfl).2 (by decide) "/dev/hda2" rfl).1) rfl

/-- C10: NewDevice pre-caches active := rootfsPartA and
inactive := rootfsPartB, so on any device it constructs from two valid,
distinct paths both getters answer from the cache — GetInactive is
rootfsPartB and GetActive is rootfsPartA whatever the mount-table and
bootloader discovery would say. -/
theorem newDevice_precache_spec (rootfsPartA rootfsPartB : String)
    (hA : rootfsPartA ≠ "") (hB : rootfsPartB ≠ "")
    (_hne : rootfsPartA ≠ rootfsPartB) :
    ∃ p, NewDevice rootfsPartA rootfsPartB = Except.ok p ∧
      ∀ discover : Except PartErr String,
        GetInactive p discover = Except.ok rootfsPartB ∧
        GetActive p discover = Except.ok rootfsPartA := by
  refine ⟨{ rootfsPartA := some rootfsPartA, rootfsPartB := some rootfsPartB,
            active := some rootfsPartA, inactive := some rootfsPartB },
          ?_, ?_⟩
  · simp [NewDevice, NewPartition, hA, hB]
  · intro discover
    exact ⟨rfl, rfl⟩

/-- Witness for C10: the theorem applied to the hda2/hda3 pair. -/
theorem newDevice_precache_spec_witness :
    ∃ p, NewDevice "/dev/hda2" "/dev/hda3" = Except.ok p ∧
      ∀ discover : Except PartErr String,
        GetInactive p discover = Except.ok "/dev/hda3" ∧
        GetActive p discover = Except.ok "/dev/hda2" :=
  newDevice_precache_spec "/dev/hda2" "/dev/hda3"
    (by decide) (by decide) (by decide)

theorem startsWithL_append (pat u : List Char) :
    startsWithL (pat ++ u) pat = true := by
  induction pat with
  | nil => cases u <;> rfl
  | cons p ps ih => simp [startsWithL, ih]

theorem startsWithL_eq_append (t pat : List Char)
    (h : startsWithL t pat = true) : t = pat ++ t.drop pat.length := by
  induction pat generalizing t with
  | nil => simp
  | cons p ps ih =>
    cases t with
    | nil => simp [startsWithL] at h
    | cons c cs =>
      simp only [startsWithL, Bool.and_eq_true, beq_iff_eq] at h
      obtain ⟨hc, hrest⟩ := h
      subst hc
      simpa using ih cs hrest

theorem dropWhile_all_append (p : Char → Bool) (l : List Char) (a : Char)
    (r : List Char) (hl : ∀ c ∈ l, p c = true) (ha : p a = false) :
    (l ++ a :: r).dropWhile p = a :: r := by
  induction l with
  | nil => simp [List.dropWhile_cons, ha]
  | cons x xs ih =>
    rw [List.cons_append, List.dropWhile_cons_of_pos (hl x (by simp))]
    exact ih (fun c hc => hl c (by simp [hc]))

theorem takeWhile_all_append (p : Char → Bool) (l : List Char) (a : Char)
    (r : List Char) (hl : ∀ c ∈ l, p c = true) (ha : p a = false) :
    (l ++ a :: r).takeWhile p = l := by
  induction l with
  | nil => simp [List.takeWhile_cons, ha]
  | cons x xs ih =>
    rw [List.cons_append, List.takeWhile_cons_of_pos (hl x (by simp))]
    rw [ih (fun c hc => hl c (by simp [hc]))]

theorem matchOptionalSuffix_iff (suf : List Char) :
    matchOptionalSuffix suf = true ↔
      (suf = [] ∨ ∃ t, suf = '_' :: t ∧ t ≠ [] ∧
        ∀ c ∈ t, isSpaceGo c = false) := by
  cases suf with
  | nil => simp [matchOptionalSuffix]
  | cons d t =>
    simp only [matchOptionalSuffix, Bool.and_eq_true, beq_iff_eq,
      List.all_eq_true]
    constructor
    · rintro ⟨⟨hd, hne⟩, hall⟩
      subst hd
      refine Or.inr ⟨t, rfl, by simpa [List.isEmpty_iff] using hne,
        fun c hc => by simpa using hall c hc⟩
    · rintro (h | ⟨t', ht', hne, hall⟩)
      · cases h
      · cases ht'
        exact ⟨⟨rfl, by simp [List.isEmpty_iff, hne]⟩,
          fun c hc => by simpa using hall c hc⟩

theorem matchDigitsSuffix_iff (r : List Char) :
    matchDigitsSuffix r = true ↔
      ∃ d1 d2 suf, r = d1 :: d2 :: suf ∧ isDigitGo d1 = true ∧
        isDigitGo d2 = true ∧ matchOptionalSuffix suf = true := by
  cases r with
  | nil => simp [matchDigitsSuffix]
  | cons d1 r' =>
    cases r' with
    | nil => simp [matchDigitsSuffix]
    | cons d2 suf =>
      simp only [matchDigitsSuffix, Bool.and_eq_true]
      constructor
      · rintro ⟨⟨h1, h2⟩, h3⟩
        exact ⟨d1, d2, suf, rfl, h1, h2, h3⟩
      · rintro ⟨e1, e2, s, hr, h1, h2, h3⟩
        cases hr
        exact ⟨⟨h1, h2⟩, h3⟩

theorem matchActionTail_intro (act X : List Char)
    (hact : act = "Enter".toList ∨ act = "Leave".toList ∨
      act = "Error".toList)
    (hX : matchDigitsSuffix X = true) :
    matchActionTail (act ++ '_' :: X) = true := by
  simp only [matchActionTail, Bool.or_eq_true, Bool.and_eq_true]
  rcases hact with h | h | h <;> subst h
  · refine Or.inl (Or.inl ⟨?_, ?_⟩)
    · exact startsWithL_append "Enter_".toList X
    · have hdrop : ("Enter_".toList ++ X).drop 6 = X :=
        List.drop_left "Enter_".toList X
      rw [show ("Enter".toList : List Char) ++ '_' :: X
          = "Enter_".toList ++ X from rfl, hdrop]
      exact hX
  · refine Or.inl (Or.inr ⟨?_, ?_⟩)
    · exact startsWithL_append "Leave_".toList X
    · have hdrop : ("Leave_".toList ++ X).drop 6 = X :=
        List.drop_left "Leave_".toList X
      rw [show ("Leave".toList : List Char) ++ '_' :: X
          = "Leave_".toList ++ X from rfl, hdrop]
      exact hX
  · refine Or.inr ⟨?_, ?_⟩
    · exact startsWithL_append "Error_".toList X
    · have hdrop : ("Error_".toList ++ X).drop 6 = X :=
        List.drop_left "Error_".toList X
      rw [show ("Error".toList : List Char) ++ '_' :: X
          = "Error_".toList ++ X from rfl, hdrop]
      exact hX

theorem matchActionTail_elim (r : List Char) (h : matchActionTail r = true) :
    ∃ act, (act = "Enter".toList ∨ act = "Leave".toList ∨
        act = "Error".toList) ∧
      r = act ++ '_' :: r.drop 6 ∧ matchDigitsSuffix (r.drop 6) = true := by
  simp only [matchActionTail, Bool.or_eq_true, Bool.and_eq_true] at h
  rcases h with (⟨hsw, hds⟩ | ⟨hsw, hds⟩) | ⟨hsw, hds⟩
  · exact ⟨"Enter".toList, Or.inl rfl,
      startsWithL_eq_append r "Enter_".toList hsw, hds⟩
  · exact ⟨"Leave".toList, Or.inr (Or.inl rfl),
      startsWithL_eq_append r "Leave_".toList hsw, hds⟩
  · exact ⟨"Error".toList, Or.inr (Or.inr rfl),
      startsWithL_eq_append r "Error_".toList hsw, hds⟩

theorem scriptFormatMatch_iff_spec (cs : List Char) :
    scriptFormatMatch cs = true ↔ SpecScriptName cs := by
  constructor
  · intro h
    unfold scriptFormatMatch at h
    cases hd : cs.dropWhile isAlphaGo with
    | nil =>
      rw [hd] at h
      simp [matchClassTail] at h
    | cons d rest =>
      rw [hd] at h
      simp only [matchClassTail, Bool.and_eq_true, beq_iff_eq,
        Bool.not_eq_true'] at h
      obtain ⟨⟨hdu, hclsne⟩, hmat⟩ := h
      subst hdu
      have hcs : cs = cs.takeWhile isAlphaGo ++ '_' :: rest := by
        have h2 := List.takeWhile_append_dropWhile isAlphaGo cs
        rw [hd] at h2
        exact h2.symm
      obtain ⟨act, hact, hreq, hds⟩ := matchActionTail_elim rest hmat
      obtain ⟨d1, d2, suf, hrest6, hd1, hd2, hsufm⟩ :=
        (matchDigitsSuffix_iff (rest.drop 6)).mp hds
      refine ⟨cs.takeWhile isAlphaGo, act, d1, d2, suf, ?_,
        by simpa [List.isEmpty_iff] using hclsne,
        fun c hc => List.mem_takeWhile_imp hc, hact, hd1, hd2,
        (matchOptionalSuffix_iff suf).mp hsufm⟩
      have hstep : cs.takeWhile isAlphaGo ++ '_' :: rest
          = cs.takeWhile isAlphaGo
            ++ '_' :: (act ++ '_' :: d1 :: d2 :: suf) := by
        rw [hreq, hrest6]
      exact hcs.trans hstep
  · rintro ⟨cls, act, d1, d2, suf, hcs, hclsne, hclsall, hact, hd1, hd2,
      hsuf⟩
    subst hcs
    have hdw := dropWhile_all_append isAlphaGo cls '_'
      (act ++ '_' :: d1 :: d2 :: suf) hclsall (by decide)
    have htw := takeWhile_all_append isAlphaGo cls '_'
      (act ++ '_' :: d1 :: d2 :: suf) hclsall (by decide)
    unfold scriptFormatMatch
    rw [hdw, htw]
    simp only [matchClassTail, Bool.and_eq_true, beq_iff_eq,
      Bool.not_eq_true']
    refine ⟨⟨trivial, by simp [List.isEmpty_iff, hclsne]⟩, ?_⟩
    exact matchActionTail_intro act (d1 :: d2 :: suf) hact
      ((matchDigitsSuffix_iff (d1 :: d2 :: suf)).mpr
        ⟨d1, d2, suf, rfl, hd1, hd2, (matchOptionalSuffix_iff suf).mpr hsuf⟩)

/-- C2: among file names containing the transition-class name followed by
an underscore and containing the action name, Launcher.get selects a file
exactly when the entire name has the shape ClassName_Action_NN[_suffix]
with NN exactly two digits; on the concrete listing,
ArtifactInstall_Leave (no digits) and ArtifactInstall_Leave_100 (three
digits) are skipped while ArtifactInstall_Leave_02 and
ArtifactInstall_Leave_10_wifi-driver are kept, and the malformed names are
skipped without failing the discovery. -/
theorem launcherGet_selection_spec :
    (∀ (files : List String) (state action name : String),
      name ∈ files →
      containsL name.toList (state ++ "_").toList = true →
      containsL name.toList action.toList = true →
      (name ∈ getScripts files state action ↔
        SpecScriptName name.toList)) ∧
    getScripts
      ["ArtifactInstall_Leave", "ArtifactInstall_Leave_02",
       "ArtifactInstall_Leave_100", "ArtifactInstall_Leave_10_wifi-driver"]
      "ArtifactInstall" "Leave"
      = ["ArtifactInstall_Leave_02",
         "ArtifactInstall_Leave_10_wifi-driver"] := by
  constructor
  · intro files state action name hmem hc1 hc2
    unfold getScripts
    rw [List.mem_filter]
    unfold selectScript
    constructor
    · rintro ⟨_, hsel⟩
      simp only [Bool.and_eq_true] at hsel
      exact (scriptFormatMatch_iff_spec name.toList).mp hsel.2
    · intro hspec
      refine ⟨hmem, ?_⟩
      simp only [Bool.and_eq_true]
      exact ⟨⟨hc1, hc2⟩, (scriptFormatMatch_iff_spec name.toList).mpr hspec⟩
  · decide

/-- Witness for C2: the selection criterion applied to the accepted name
ArtifactInstall_Leave_10_wifi-driver in a one-file directory. -/
theorem launcherGet_selection_spec_witness :
    ("ArtifactInstall_Leave_10_wifi-driver"
        ∈ getScripts ["ArtifactInstall_Leave_10_wifi-driver"]
          "ArtifactInstall" "Leave" ↔
      SpecScriptName "ArtifactInstall_Leave_10_wifi-driver".toList) :=
  launcherGet_selection_spec.1 ["ArtifactInstall_Leave_10_wifi-driver"]
    "ArtifactInstall" "Leave" "ArtifactInstall_Leave_10_wifi-driver"
    (by simp) (by decide) (by decide)

/-- C9 (code evidence): makeUpdateStatusRequest builds the update-status
URL with a hard-coded placeholder path segment containing "10" in literal
braces — the deployment ID is not even an argument of the function — so
the submitted URL never names the current deployment. -/
theorem makeUpdateStatusRequestURL_hardcoded :
    makeUpdateStatusRequestURL "https://mender.io"
      = "https://mender.io/api/devices/v1/device/deployments/\x7b10\x7d/status"
    ∧ ∀ server : String, makeUpdateStatusRequestURL server
      = buildURL server
        ++ "/api/devices/v1/device/deployments/\x7b10\x7d/status" := by
  constructor
  · decide
  · intro server
    unfold makeUpdateStatusRequestURL buildApiURL
    rw [show (hasPrefixS "/device/deployments/\x7b10\x7d/status" "/") = true
      from by decide]
    simp only [if_true]
    rw [String.append_assoc]
    rw [show apiPrefix
        ++ String.mk (("/device/deployments/\x7b10\x7d/status").toList.drop 1)
        = "/api/devices/v1/device/deployments/\x7b10\x7d/status"
      from by decide]

theorem all_prefix_length_le_takeWhile (p : Char → Bool) :
    ∀ (t l : List Char), t <+: l → (∀ c ∈ t, p c = true) →
      t.length ≤ (l.takeWhile p).length := by
  intro t
  induction t with
  | nil => simp
  | cons a t ih =>
    intro l hpre hall
    obtain ⟨r, hr⟩ := hpre
    subst hr
    rw [List.cons_append, List.takeWhile_cons_of_pos (hall a (by simp))]
    simp only [List.length_cons, Nat.succ_le_succ_iff]
    exact ih (t ++ r) ⟨r, rfl⟩ (fun c hc => hall c (by simp [hc]))

theorem string_eq_empty_iff (s : String) : s = "" ↔ s.toList = [] := by
  constructor
  · intro h
    subst h
    rfl
  · intro h
    cases s with
    | mk data =>
      have hd : data = [] := h
      subst hd
      rfl

/-- Counterexample for C8: a path whose trailing digit run has 20 digits
overflows int64, so strconv.Atoi fails and EnableUpdatedPartition rejects
the partition as invalid and writes nothing, although the path does have
trailing digits — refuting the claim that the operation fails only when
the path has no trailing digits. -/
theorem enableUpdatedPartition_overflow_counterexample :
    trailingDigits "/dev/p99999999999999999999" ≠ "" ∧
    EnableUpdatedPartition
      ⟨some "/dev/p1", some "/dev/p99999999999999999999",
       some "/dev/p1", some "/dev/p99999999999999999999"⟩
      (Except.error (PartErr.other ""))
      = Except.error
        ("Invalid inactive partition: /dev/p99999999999999999999") :=
  ⟨by decide, rfl⟩

/-- C8 as amended: when the longest trailing digit run of the inactive
partition's path is non-empty and its value fits in int64,
EnableUpdatedPartition performs one WriteEnv call carrying
upgrade_available "1", bootcount "0", mender_boot_part equal to that digit
run and mender_boot_part_hex equal to the same number in uppercase
hexadecimal; when the run is empty or its value exceeds int64 (an Atoi
range error) it fails with the invalid-partition error writing nothing.
The second part checks that trailingDigits is the longest all-digit suffix
of the path. -/
theorem enableUpdatedPartition_spec :
    (∀ (p : Partitions) (discover : Except PartErr String) (ipath : String),
      GetInactive p discover = Except.ok ipath →
      (trailingDigits ipath ≠ "" →
        digitsToNat (trailingDigits ipath).toList ≤ maxInt64 →
        EnableUpdatedPartition p discover = Except.ok
          [("upgrade_available", "1"),
           ("mender_boot_part", trailingDigits ipath),
           ("mender_boot_part_hex",
             formatHexUpper (digitsToNat (trailingDigits ipath).toList)),
           ("bootcount", "0")]) ∧
      ((trailingDigits ipath = "" ∨
        maxInt64 < digitsToNat (trailingDigits ipath).toList) →
        EnableUpdatedPartition p discover
          = Except.error ("Invalid inactive partition: " ++ ipath))) ∧
    (∀ cs : List Char,
      (∀ c ∈ trailingDigitsL cs, isDigitGo c = true) ∧
      trailingDigitsL cs <:+ cs ∧
      (∀ t : List Char, t <:+ cs → (∀ c ∈ t, isDigitGo c = true) →
        t.length ≤ (trailingDigitsL cs).length)) := by
  constructor
  · intro p discover ipath hget
    constructor
    · intro hne hle
      have hlistne : (trailingDigits ipath).data ≠ [] :=
        fun hh => hne ((string_eq_empty_iff _).mpr hh)
      have hle2 : digitsToNat (trailingDigits ipath).data ≤ maxInt64 := hle
      simp [EnableUpdatedPartition, getInactivePartition, hget, atoiDigits,
        hlistne, hle2]
    · intro h
      have hnone : atoiDigits (trailingDigits ipath).data = none := by
        rcases h with he | hov
        · rw [he]
          rfl
        · have hgt : ¬ digitsToNat (trailingDigits ipath).data ≤ maxInt64 :=
            Nat.not_le.mpr hov
          simp [atoiDigits, hgt]
      simp [EnableUpdatedPartition, getInactivePartition, hget, hnone]
  · intro cs
    refine ⟨?_, ?_, ?_⟩
    · intro c hc
      rw [trailingDigitsL, List.mem_reverse] at hc
      exact List.mem_takeWhile_imp hc
    · have h := List.takeWhile_prefix (l := cs.reverse) isDigitGo
      exact List.reverse_prefix.mp (by simpa [trailingDigitsL] using h)
    · intro t hsuf hall
      have hpre : t.reverse <+: cs.reverse := List.reverse_prefix.mpr hsuf
      have hall' : ∀ c ∈ t.reverse, isDigitGo c = true := by
        intro c hc
        exact hall c (List.mem_reverse.mp hc)
      have hlen := all_prefix_length_le_takeWhile isDigitGo t.reverse
        cs.reverse hpre hall'
      simpa [trailingDigitsL] using hlen

/-- Witness for C8's amended theorem: a device whose cached inactive
partition is /dev/hda3 writes boot-partition number "3" with hexadecimal
"3". -/
theorem enableUpdatedPartition_spec_witness :
    EnableUpdatedPartition
      ⟨some "/dev/hda2", some "/dev/hda3", some "/dev/hda2", some "/dev/hda3"⟩
      (Except.error (PartErr.other "")) = Except.ok
      [("upgrade_available", "1"), ("mender_boot_part", "3"),
       ("mender_boot_part_hex", "3"), ("bootcount", "0")] :=
  (enableUpdatedPartition_spec.1
    ⟨some "/dev/hda2", some "/dev/hda3", some "/dev/hda2", some "/dev/hda3"⟩
    (Except.error (PartErr.other "")) "/dev/hda3" rfl).1 (by decide) (by decide)

end Mender
